import Mathlib

/-!
# Orchestrix core — shallow embedding

A shallow embedding of the Orchestrix job-orchestrator core
(state machine, job model, repository operations, job service,
claim protocol, retry backoff), translated from the Go sources:

* `internal/job/state/state.go` — lifecycle states and the transition
  validator;
* `internal/job/model` (job.go) — the `Job` record and its helper methods;
* `internal/job/repository` (postgres.go) — the durable store, modelled as
  a list of rows keyed by `id`; SQL reads/writes become list operations,
  and the unspecified order of rows tied on `created_at` in
  `ORDER BY created_at ASC` is resolved as table order (a stable sort);
* `internal/job/service` (service.go, retry.go) — the job service and the
  backoff computation; `time.Now()` becomes an explicit `now : Nat`
  parameter, the float64 backoff arithmetic is modelled over `Nat`
  (nanosecond durations) with the int64→float64 conversions rendered as
  round-to-nearest-even at 53 significand bits (`fl53`), and `math/rand`
  becomes an explicit stream of samples;
* `internal/worker/worker.go` — the worker pool's failure classification.

Fallible operations return their error alongside the resulting store; an
error result carries the unchanged store, mirroring the Go code which
returns before issuing any write (or rolls the transaction back).
-/

namespace Orchestrix

/-- Lifecycle state of a job (`state.State`, seven constants). -/
inductive State where
  | pending
  | scheduled
  | running
  | succeeded
  | failed
  | retrying
  | cancelled
deriving DecidableEq, Repr, Fintype

/-- `State.IsTerminal`: SUCCEEDED, FAILED and CANCELLED are terminal. -/
def State.isTerminal (s : State) : Bool :=
  s == .succeeded || s == .failed || s == .cancelled

/-- `State.IsValid`: membership in the seven recognized states.  On the
closed inductive type every state is recognized, so every branch of the
source's switch returns `true`. -/
def State.isValid : State → Bool
  | .pending | .scheduled | .running | .succeeded
  | .failed | .retrying | .cancelled => true

/-- `StateMachine.CanTransition`: the transition table.  Self-transitions
and transitions out of a terminal state are rejected first, then the
per-source-state switch applies. -/
def canTransition (s t : State) : Bool :=
  if s == t then false
  else if s.isTerminal then false
  else match s with
    | .pending => t == .scheduled || t == .cancelled
    | .scheduled => t == .running || t == .cancelled
    | .running => t == .succeeded || t == .failed || t == .retrying || t == .cancelled
    | .retrying => t == .scheduled || t == .cancelled
    | _ => false

/-- The error kinds `StateMachine.ValidateTransition` can surface. -/
inductive TransitionError where
  | invalidSource (s : State)
  | invalidTarget (s : State)
  | selfTransition (s : State)
  | terminalSource (s t : State)
  | forbidden (s t : State)
deriving DecidableEq, Repr

/-- `StateMachine.ValidateTransition`: the same checks as
`canTransition`, but reporting which rule rejected the pair.  `none`
means the transition is allowed. -/
def validateTransition (s t : State) : Option TransitionError :=
  if !s.isValid then some (.invalidSource s)
  else if !t.isValid then some (.invalidTarget t)
  else if s == t then some (.selfTransition s)
  else if s.isTerminal then some (.terminalSource s t)
  else if !canTransition s t then some (.forbidden s t)
  else none

/-- `model.Job`: the single first-class entity.  Timestamps are abstract
ticks (`Nat`); nullable columns are `Option`s; the payload byte slice is
a `String`. -/
structure Job where
  id : String
  type : String
  payload : String
  state : State
  attempt : Nat
  maxAttempts : Nat
  lastError : Option String
  createdAt : Nat
  scheduledAt : Option Nat
  startedAt : Option Nat
  completedAt : Option Nat
deriving DecidableEq, Repr

/-- `Job.IsTerminal`. -/
def Job.isTerminal (j : Job) : Bool := j.state.isTerminal

/-- `Job.CanRetry`: purely attempt accounting, no state check. -/
def Job.canRetry (j : Job) : Bool := j.attempt < j.maxAttempts

/-- `Job.IncrementAttempt`. -/
def Job.incrementAttempt (j : Job) : Job := { j with attempt := j.attempt + 1 }

/-- `Job.RecordError`: stores the message only when the error is non-nil
(`none` models a nil Go error). -/
def Job.recordError (j : Job) (err : Option String) : Job :=
  match err with
  | some msg => { j with lastError := some msg }
  | none => j

/-- The durable store: the `jobs` table as a list of rows, `id` being
the primary key (callers maintain `Nodup` on the ids). -/
abbrev Store := List Job

/-- `PostgresJobRepository.GetByID`: `SELECT … WHERE id = $1`; `none`
models the no-rows case (job not found, not an error). -/
def getByID (st : Store) (id : String) : Option Job :=
  st.find? (fun j => j.id == id)

/-- `PostgresJobRepository.Update`: full-row update by id; errors when no
row was affected. `.ok` carries the new table, `.error` the message. -/
def updateRow (st : Store) (job : Job) : Except String Store :=
  if st.any (fun j => j.id == job.id) then
    .ok (st.map (fun j => if j.id == job.id then job else j))
  else
    .error ("job not found: " ++ job.id)

/-- `PostgresJobRepository.Create`: insert; fails on duplicate id
(primary-key violation). -/
def createRow (st : Store) (job : Job) : Except String Store :=
  if st.any (fun j => j.id == job.id) then
    .error "failed to create job: duplicate key"
  else
    .ok (st ++ [job])

/-- The error taxonomy surfaced by the job service. -/
inductive ServiceError where
  | notFound (id : String)
  | validation (msg : String)
  | invalidTransition (e : TransitionError)
  | alreadyTerminal (s : State)
  | storeError (msg : String)
deriving DecidableEq, Repr

/-- Result of a service operation: the error, if any, together with the
store after the operation.  Every error path of the Go code returns
before writing (or rolls back), so error results carry the store
unchanged. -/
abbrev ServiceResult := Option ServiceError × Store

/-- `Job.Validate`: first failing rule, as its message; `none` means
valid.  `jsonValid` abstracts `json.Valid` (its choice never matters to
the properties proved here). -/
def Job.validate (jsonValid : String → Bool) (j : Job) : Option String :=
  if j.id == "" then some "job ID is required"
  else if j.type == "" then some "job type is required"
  else if j.payload.length > 0 && !jsonValid j.payload then
    some "job payload is not valid JSON"
  else if !j.state.isValid then some "invalid job state"
  else if j.maxAttempts < 1 then some "max attempts must be at least 1"
  else if j.attempt > j.maxAttempts then some "attempt exceeds max attempts"
  else none

/-- `JobService.CreateJob`: validates the input, builds the job with
state PENDING, attempt 1, maxAttempts 3, and inserts it.  The generated
id comes in as the `id` argument (the id generator modelled as an input). -/
def createJob (jsonValid : String → Bool) (st : Store) (id jobType payload : String)
    (now : Nat) : ServiceResult :=
  if jobType == "" then (some (.validation "job type is required"), st)
  else if payload.length > 0 && !jsonValid payload then
    (some (.validation "payload must be valid JSON"), st)
  else
    let job : Job :=
      { id := id, type := jobType, payload := payload, state := .pending
        attempt := 1, maxAttempts := 3, lastError := none, createdAt := now
        scheduledAt := none, startedAt := none, completedAt := none }
    match job.validate jsonValid with
    | some msg => (some (.validation msg), st)
    | none =>
      match createRow st job with
      | .ok st' => (none, st')
      | .error msg => (some (.storeError msg), st)

/-- `JobService.TransitionState`: load the job, validate the transition,
stamp the side-effect timestamp for the target state, persist the full
row. -/
def transitionState (st : Store) (id : String) (newState : State) (now : Nat) :
    ServiceResult :=
  match getByID st id with
  | none => (some (.notFound id), st)
  | some job =>
    match validateTransition job.state newState with
    | some e => (some (.invalidTransition e), st)
    | none =>
      let job := { job with state := newState }
      let job :=
        match newState with
        | .scheduled => { job with scheduledAt := some now }
        | .running => { job with startedAt := some now }
        | .succeeded | .failed | .cancelled => { job with completedAt := some now }
        | _ => job
      match updateRow st job with
      | .ok st' => (none, st')
      | .error msg => (some (.storeError msg), st)

/-- `JobService.HandleFailure`: load the job, record the error, then
retry (attempt+1, RETRYING) while attempts remain, else fail permanently
(FAILED, completed_at).  The computed backoff is advisory and discarded.
No state-machine validation happens on this path. -/
def handleFailure (st : Store) (id : String) (failureErr : Option String)
    (now : Nat) : ServiceResult :=
  match getByID st id with
  | none => (some (.notFound id), st)
  | some job =>
    let job := job.recordError failureErr
    let job :=
      if job.canRetry then
        { job.incrementAttempt with state := .retrying }
      else
        { job with state := .failed, completedAt := some now }
    match updateRow st job with
    | .ok st' => (none, st')
    | .error msg => (some (.storeError msg), st)

/-- `JobService.CancelJob`: reject terminal jobs, validate the transition
to CANCELLED, stamp completed_at, persist. -/
def cancelJob (st : Store) (id : String) (now : Nat) : ServiceResult :=
  match getByID st id with
  | none => (some (.notFound id), st)
  | some job =>
    if job.isTerminal then (some (.alreadyTerminal job.state), st)
    else
      match validateTransition job.state .cancelled with
      | some e => (some (.invalidTransition e), st)
      | none =>
        match updateRow st { job with state := .cancelled, completedAt := some now } with
        | .ok st' => (none, st')
        | .error msg => (some (.storeError msg), st)

/-- One insertion step of the stable sort modelling
`ORDER BY created_at ASC`: an incoming row goes before the first row
with a later-or-equal `created_at`. -/
def insertByCreatedAt (j : Job) : List Job → List Job
  | [] => [j]
  | k :: ks =>
    if j.createdAt ≤ k.createdAt then j :: k :: ks
    else k :: insertByCreatedAt j ks

/-- Stable sort by `created_at` ascending.  SQL leaves the relative order
of rows with equal `created_at` unspecified; this model resolves it as
table order (stability), which is one behaviour the database is allowed
to exhibit. -/
def orderByCreatedAt : List Job → List Job
  | [] => []
  | j :: js => insertByCreatedAt j (orderByCreatedAt js)

/-- The candidate rows of `ClaimPendingJobs`:
`WHERE state IN (PENDING, RETRYING) ORDER BY created_at ASC LIMIT limit`. -/
def claimCandidates (st : Store) (limit : Nat) : List Job :=
  (orderByCreatedAt (st.filter fun j => j.state == .pending || j.state == .retrying)).take limit

/-- The per-row effect of the claim's
`UPDATE jobs SET state = SCHEDULED, scheduled_at = now`. -/
def claimUpdate (now : Nat) (j : Job) : Job :=
  { j with state := .scheduled, scheduledAt := some now }

/-- `PostgresJobRepository.ClaimPendingJobs`: select the candidate batch
under lock, and if it is non-empty update every candidate row to
SCHEDULED with `scheduled_at = now`, commit, and return the in-memory
snapshots updated the same way.  `updateFails` models the transactional
UPDATE failing after selection: the transaction rolls back, so the
caller sees an error, no snapshots, and the unchanged table. -/
def claimPendingJobs (st : Store) (limit : Nat) (now : Nat) (updateFails : Bool) :
    Option String × List Job × Store :=
  let candidates := claimCandidates st limit
  if candidates.isEmpty then (none, [], st)
  else if updateFails then (some "failed to update jobs to SCHEDULED", [], st)
  else
    let ids := candidates.map Job.id
    let st' := st.map fun j => if ids.contains j.id then claimUpdate now j else j
    (none, candidates.map (claimUpdate now), st')

/-- `WorkerPool.handleFailure`: a permanent failure (missing executor or
recovered panic, `retryable = false`) is persisted via
`TransitionState(FAILED)`; a retryable one goes through
`JobService.HandleFailure` with the executor error.  The metrics re-read
performed afterwards does not touch the store. -/
def workerHandleFailure (st : Store) (jobId : String) (execErr : String)
    (retryable : Bool) (now : Nat) : ServiceResult :=
  if !retryable then
    transitionState st jobId .failed now
  else
    handleFailure st jobId (some execErr) now

/-- The ordering relation of the claim query: `created_at` ascending. -/
def createdLE (a b : Job) : Prop := a.createdAt ≤ b.createdAt

/-- A PENDING job fresh from `CreateJob`, shared by the concrete test
stores below. -/
def jobPending : Job :=
  { id := "j1", type := "demo", payload := "", state := .pending
    attempt := 1, maxAttempts := 3, lastError := none, createdAt := 0
    scheduledAt := none, startedAt := none, completedAt := none }

/-- The same job while RUNNING (first attempt). -/
def jobRunning : Job := { jobPending with state := .running }

/-- Invariant I5, restricted to the states for which the code maintains
it: a SCHEDULED, RUNNING or SUCCEEDED job has `scheduled_at` set
(SUCCEEDED is reachable only from RUNNING, which already has it). -/
def scheduledSet (st : Store) : Prop :=
  ∀ j ∈ st,
    (j.state = .scheduled ∨ j.state = .running ∨ j.state = .succeeded) →
      j.scheduledAt.isSome

/-- Invariants I2/P3: `1 ≤ attempt ≤ max_attempts` for every stored job. -/
def attemptBounded (st : Store) : Prop :=
  ∀ j ∈ st, 1 ≤ j.attempt ∧ j.attempt ≤ j.maxAttempts

/-- Two PENDING jobs sharing one `created_at`, stored with ids in
descending order. -/
def jobTieB : Job := { jobPending with id := "b" }

/-- See `jobTieB`. -/
def jobTieA : Job := { jobPending with id := "a" }

/-- The ordering the spec claims for `ClaimPendingJobs` results, stated
from the spec's words for comparison with the code: `created_at`
ascending with ties broken by `id` ascending. -/
def specClaimOrdering (l : List Job) : Prop :=
  l.Pairwise fun a b =>
    a.createdAt < b.createdAt ∨ (a.createdAt = b.createdAt ∧ a.id ≤ b.id)

/-! ## Helper lemmas -/

theorem mem_insertByCreatedAt {a j : Job} {l : List Job} :
    a ∈ insertByCreatedAt j l ↔ a = j ∨ a ∈ l := by
  induction l with
  | nil => simp [insertByCreatedAt]
  | cons k ks ih =>
    by_cases h : j.createdAt ≤ k.createdAt
    · simp [insertByCreatedAt, h]
    · simp [insertByCreatedAt, h, ih]
      tauto

theorem pairwise_insertByCreatedAt {j : Job} {l : List Job}
    (h : l.Pairwise createdLE) : (insertByCreatedAt j l).Pairwise createdLE := by
  induction l with
  | nil => simp [insertByCreatedAt]
  | cons k ks ih =>
    rcases List.pairwise_cons.mp h with ⟨hk, hks⟩
    by_cases hle : j.createdAt ≤ k.createdAt
    · rw [insertByCreatedAt, if_pos hle]
      refine List.pairwise_cons.mpr ⟨?_, h⟩
      intro x hx
      rcases List.mem_cons.mp hx with rfl | hx'
      · exact hle
      · exact le_trans hle (hk x hx')
    · rw [insertByCreatedAt, if_neg hle]
      refine List.pairwise_cons.mpr ⟨?_, ih hks⟩
      intro x hx
      rcases mem_insertByCreatedAt.mp hx with rfl | hx'
      · exact le_of_not_le hle
      · exact hk x hx'

theorem pairwise_orderByCreatedAt (l : List Job) :
    (orderByCreatedAt l).Pairwise createdLE := by
  induction l with
  | nil => exact List.Pairwise.nil
  | cons j js ih => exact pairwise_insertByCreatedAt ih

theorem mem_orderByCreatedAt {a : Job} {l : List Job} :
    a ∈ orderByCreatedAt l ↔ a ∈ l := by
  induction l with
  | nil => simp [orderByCreatedAt]
  | cons j js ih => simp [orderByCreatedAt, mem_insertByCreatedAt, ih]

theorem mem_claimCandidates {a : Job} {st : Store} {limit : Nat}
    (h : a ∈ claimCandidates st limit) :
    a ∈ st ∧ (a.state = .pending ∨ a.state = .retrying) := by
  have h1 : a ∈ orderByCreatedAt (st.filter fun j => j.state == .pending || j.state == .retrying) :=
    List.mem_of_mem_take h
  have h2 := mem_orderByCreatedAt.mp h1
  have h3 := List.mem_filter.mp h2
  refine ⟨h3.1, ?_⟩
  have := h3.2
  simp only [Bool.or_eq_true, beq_iff_eq] at this
  exact this

theorem getByID_eq_some {st : Store} {id : String} {j : Job}
    (h : getByID st id = some j) : j ∈ st ∧ j.id = id := by
  refine ⟨List.mem_of_find?_eq_some h, ?_⟩
  have := List.find?_some h
  simpa using this

theorem getByID_map_of_nodup {st : Store} {f : Job → Job}
    (hf : ∀ j, (f j).id = j.id) {j0 : Job} (hmem : j0 ∈ st)
    (hnd : (st.map Job.id).Nodup) :
    getByID (st.map f) j0.id = some (f j0) := by
  induction st with
  | nil => cases hmem
  | cons k ks ih =>
    simp only [List.map_cons, List.nodup_cons] at hnd
    obtain ⟨hknotin, hndks⟩ := hnd
    rcases List.mem_cons.mp hmem with rfl | hmem'
    · have hbeq : ((f j0).id == j0.id) = true := beq_iff_eq.mpr (hf j0)
      simp [getByID, List.find?_cons, hbeq]
    · have hne : k.id ≠ j0.id := fun he =>
        hknotin (he ▸ List.mem_map_of_mem Job.id hmem')
      have hbeq : ((f k).id == j0.id) = false := by
        rw [hf k]; exact beq_eq_false_iff_ne.mpr hne
      simpa [getByID, List.find?_cons, hbeq] using ih hmem' hndks

theorem getByID_self_of_nodup {st : Store} {j0 : Job} (hmem : j0 ∈ st)
    (hnd : (st.map Job.id).Nodup) : getByID st j0.id = some j0 := by
  have := @getByID_map_of_nodup st id (fun _ => rfl) j0 hmem hnd
  simpa using this

theorem validateTransition_none_iff (s t : State) :
    validateTransition s t = none ↔ canTransition s t = true := by
  revert s t; decide

theorem updateRow_of_mem {st : Store} {j j' : Job} (hmem : j ∈ st)
    (hid : j'.id = j.id) :
    updateRow st j' = .ok (st.map fun k => if k.id == j'.id then j' else k) := by
  unfold updateRow
  rw [if_pos]
  exact List.any_eq_true.mpr ⟨j, hmem, beq_iff_eq.mpr hid.symm⟩

theorem serviceFinish (st : Store) {j : Job} (j' : Job) (hmem : j ∈ st)
    (hid : j'.id = j.id) :
    (match updateRow st j' with
      | .ok st' => ((none : Option ServiceError), st')
      | .error msg => (some (ServiceError.storeError msg), st)) =
      ((none : Option ServiceError), st.map fun k => if k.id == j'.id then j' else k) := by
  rw [updateRow_of_mem hmem hid]

/-- The successful `transitionState` write, field by field: the stored
row keeps every column of the loaded job except `state` and the one
timestamp stamped for the target state. -/
theorem transitionState_ok_shape {st : Store} {id : String} {tgt : State}
    {now : Nat} {job : Job} (hmem : job ∈ st) (hget : getByID st id = some job)
    (hvt : validateTransition job.state tgt = none) :
    ∃ job', job'.id = job.id ∧ job'.state = tgt
      ∧ job'.attempt = job.attempt ∧ job'.maxAttempts = job.maxAttempts
      ∧ job'.scheduledAt = (if tgt = State.scheduled then some now else job.scheduledAt)
      ∧ transitionState st id tgt now =
          (none, st.map fun k => if k.id == job'.id then job' else k) := by
  obtain ⟨hmem', hid⟩ := getByID_eq_some hget
  subst hid
  cases tgt with
  | pending =>
    refine ⟨{ job with state := .pending }, rfl, rfl, rfl, rfl, by simp, ?_⟩
    simp only [transitionState, hget, hvt]
    exact serviceFinish st { job with state := .pending } hmem rfl
  | scheduled =>
    refine ⟨{ job with state := .scheduled, scheduledAt := some now },
      rfl, rfl, rfl, rfl, by simp, ?_⟩
    simp only [transitionState, hget, hvt]
    exact serviceFinish st { job with state := .scheduled, scheduledAt := some now }
      hmem rfl
  | running =>
    refine ⟨{ job with state := .running, startedAt := some now },
      rfl, rfl, rfl, rfl, by simp, ?_⟩
    simp only [transitionState, hget, hvt]
    exact serviceFinish st { job with state := .running, startedAt := some now }
      hmem rfl
  | succeeded =>
    refine ⟨{ job with state := .succeeded, completedAt := some now },
      rfl, rfl, rfl, rfl, by simp, ?_⟩
    simp only [transitionState, hget, hvt]
    exact serviceFinish st { job with state := .succeeded, completedAt := some now }
      hmem rfl
  | failed =>
    refine ⟨{ job with state := .failed, completedAt := some now },
      rfl, rfl, rfl, rfl, by simp, ?_⟩
    simp only [transitionState, hget, hvt]
    exact serviceFinish st { job with state := .failed, completedAt := some now }
      hmem rfl
  | retrying =>
    refine ⟨{ job with state := .retrying }, rfl, rfl, rfl, rfl, by simp, ?_⟩
    simp only [transitionState, hget, hvt]
    exact serviceFinish st { job with state := .retrying } hmem rfl
  | cancelled =>
    refine ⟨{ job with state := .cancelled, completedAt := some now },
      rfl, rfl, rfl, rfl, by simp, ?_⟩
    simp only [transitionState, hget, hvt]
    exact serviceFinish st { job with state := .cancelled, completedAt := some now }
      hmem rfl

/-- The successful `handleFailure` write, field by field. -/
theorem handleFailure_ok_shape {st : Store} {id : String} {err : Option String}
    {now : Nat} {job : Job} (hmem : job ∈ st) (hget : getByID st id = some job) :
    ∃ job', job'.id = job.id
      ∧ (job'.state = .retrying ∨ job'.state = .failed)
      ∧ job'.maxAttempts = job.maxAttempts
      ∧ job'.scheduledAt = job.scheduledAt
      ∧ (job'.attempt = job.attempt
          ∨ (job'.attempt = job.attempt + 1 ∧ job.attempt < job.maxAttempts))
      ∧ handleFailure st id err now =
          (none, st.map fun k => if k.id == job'.id then job' else k) := by
  obtain ⟨hmem', hid⟩ := getByID_eq_some hget
  subst hid
  cases err with
  | some m =>
    by_cases hretry : job.attempt < job.maxAttempts
    · refine ⟨{ job with
                  lastError := some m, attempt := job.attempt + 1,
                  state := .retrying },
        rfl, .inl rfl, rfl, rfl, .inr ⟨rfl, hretry⟩, ?_⟩
      simp only [handleFailure, hget, Job.recordError, Job.canRetry, Job.incrementAttempt]
      rw [if_pos (by simpa using hretry)]
      exact serviceFinish st
        { job with lastError := some m, attempt := job.attempt + 1, state := .retrying }
        hmem rfl
    · refine ⟨{ job with
                  lastError := some m, state := .failed,
                  completedAt := some now },
        rfl, .inr rfl, rfl, rfl, .inl rfl, ?_⟩
      simp only [handleFailure, hget, Job.recordError, Job.canRetry, Job.incrementAttempt]
      rw [if_neg (by simpa using hretry)]
      exact serviceFinish st
        { job with lastError := some m, state := .failed, completedAt := some now }
        hmem rfl
  | none =>
    by_cases hretry : job.attempt < job.maxAttempts
    · refine ⟨{ job with attempt := job.attempt + 1, state := .retrying },
        rfl, .inl rfl, rfl, rfl, .inr ⟨rfl, hretry⟩, ?_⟩
      simp only [handleFailure, hget, Job.recordError, Job.canRetry, Job.incrementAttempt]
      rw [if_pos (by simpa using hretry)]
      exact serviceFinish st
        { job with attempt := job.attempt + 1, state := .retrying } hmem rfl
    · refine ⟨{ job with state := .failed, completedAt := some now },
        rfl, .inr rfl, rfl, rfl, .inl rfl, ?_⟩
      simp only [handleFailure, hget, Job.recordError, Job.canRetry, Job.incrementAttempt]
      rw [if_neg (by simpa using hretry)]
      exact serviceFinish st
        { job with state := .failed, completedAt := some now } hmem rfl

/-- The successful `cancelJob` write, field by field. -/
theorem cancelJob_ok_shape {st : Store} {id : String} {now : Nat} {job : Job}
    (hmem : job ∈ st) (hget : getByID st id = some job)
    (hvt : validateTransition job.state .cancelled = none)
    (hterm : job.isTerminal = false) :
    cancelJob st id now =
      (none, st.map fun k =>
        if k.id == ({ job with state := .cancelled, completedAt := some now } : Job).id
        then { job with state := .cancelled, completedAt := some now } else k) := by
  obtain ⟨hmem', hid⟩ := getByID_eq_some hget
  subst hid
  simp only [cancelJob, hget, hterm, hvt, Bool.false_eq_true, if_false]
  exact serviceFinish st { job with state := .cancelled, completedAt := some now }
    hmem rfl

theorem jobInv_map_replace {P : Job → Prop} {st : Store} {j' : Job}
    (h : ∀ j ∈ st, P j) (hj' : P j') :
    ∀ j ∈ st.map fun k => if k.id == j'.id then j' else k, P j := by
  intro x hx
  rcases List.mem_map.mp hx with ⟨k, hk, rfl⟩
  by_cases hc : (k.id == j'.id) = true
  · simpa [hc] using hj'
  · simpa [hc] using h k hk

theorem jobInv_append {P : Job → Prop} {st : Store} {job : Job}
    (h : ∀ j ∈ st, P j) (hjob : P job) : ∀ j ∈ st ++ [job], P j := by
  intro x hx
  rcases List.mem_append.mp hx with hx' | hx'
  · exact h x hx'
  · rcases List.mem_singleton.mp hx' with rfl
    exact hjob

/-! ## Claims -/

/-- C5: `CanTransition` returns true exactly on the pairs of the §4.1
table — PENDING→{SCHEDULED, CANCELLED}, SCHEDULED→{RUNNING, CANCELLED},
RUNNING→{SUCCEEDED, FAILED, RETRYING, CANCELLED},
RETRYING→{SCHEDULED, CANCELLED} — and false on every other pair,
including all self-transitions and everything out of SUCCEEDED, FAILED
and CANCELLED. -/
theorem canTransition_table :
    ∀ s t : State, canTransition s t = true ↔
      ((s = .pending ∧ (t = .scheduled ∨ t = .cancelled)) ∨
       (s = .scheduled ∧ (t = .running ∨ t = .cancelled)) ∨
       (s = .running ∧ (t = .succeeded ∨ t = .failed ∨ t = .retrying ∨ t = .cancelled)) ∨
       (s = .retrying ∧ (t = .scheduled ∨ t = .cancelled))) := by
  decide

theorem getByID_update_of_nodup {st : Store} {job job' : Job} (hmem : job ∈ st)
    (hnd : (st.map Job.id).Nodup) (hid : job'.id = job.id) :
    getByID (st.map fun k => if k.id == job'.id then job' else k) job.id = some job' := by
  have hf : ∀ k : Job, ((fun k => if k.id == job'.id then job' else k) k).id = k.id := by
    intro k
    by_cases h : (k.id == job'.id) = true
    · simp only [h, if_true]
      exact (beq_iff_eq.mp h).symm
    · simp [h]
  have hmain := getByID_map_of_nodup hf hmem hnd
  simpa [hid] using hmain

/-- C1 counterexample: on a store holding one PENDING job, a
self-transition request `TransitionState(j1, PENDING)` leaves the
persisted state equal to the requested target even though
(PENDING, PENDING) is not an allowed pair — so "persisted state equals
`to` iff the pair is allowed" fails (an error is still returned). -/
theorem transitionState_claim_counterexample :
    (getByID (transitionState [jobPending] "j1" .pending 5).2 "j1").map Job.state
      = some .pending
    ∧ canTransition .pending .pending = false
    ∧ (transitionState [jobPending] "j1" .pending 5).1.isSome = true := by
  decide

/-- C1 (amended): for an existing job, `TransitionState(id, to)` succeeds
iff `(from, to)` is a pair allowed by the §4.1 table; on success the
persisted state equals `to`; on a disallowed pair a transition error is
returned and the store is unchanged (for a self-transition the stored
state incidentally still equals `to`). -/
theorem transitionState_spec (st : Store) (id : String) (tgt : State) (now : Nat)
    (job : Job) (hnd : (st.map Job.id).Nodup) (hget : getByID st id = some job) :
    ((transitionState st id tgt now).1 = none ↔ canTransition job.state tgt = true)
    ∧ (canTransition job.state tgt = true →
        (getByID (transitionState st id tgt now).2 id).map Job.state = some tgt)
    ∧ (canTransition job.state tgt = false →
        (∃ e, (transitionState st id tgt now).1 = some (.invalidTransition e))
        ∧ (transitionState st id tgt now).2 = st) := by
  obtain ⟨hmem, hid⟩ := getByID_eq_some hget
  subst hid
  by_cases hcan : canTransition job.state tgt = true
  · have hvt : validateTransition job.state tgt = none :=
      (validateTransition_none_iff _ _).mpr hcan
    obtain ⟨job', hid', hstate', hred⟩ :
        ∃ job', job'.id = job.id ∧ job'.state = tgt ∧
          transitionState st job.id tgt now =
            (none, st.map fun k => if k.id == job'.id then job' else k) := by
      cases tgt with
      | pending =>
        refine ⟨{ job with state := .pending }, rfl, rfl, ?_⟩
        simp only [transitionState, hget, hvt]
        rw [@updateRow_of_mem st job { job with state := .pending } hmem rfl]
      | scheduled =>
        refine ⟨{ job with state := .scheduled, scheduledAt := some now }, rfl, rfl, ?_⟩
        simp only [transitionState, hget, hvt]
        rw [@updateRow_of_mem st job { job with state := .scheduled, scheduledAt := some now } hmem rfl]
      | running =>
        refine ⟨{ job with state := .running, startedAt := some now }, rfl, rfl, ?_⟩
        simp only [transitionState, hget, hvt]
        rw [@updateRow_of_mem st job { job with state := .running, startedAt := some now } hmem rfl]
      | succeeded =>
        refine ⟨{ job with state := .succeeded, completedAt := some now }, rfl, rfl, ?_⟩
        simp only [transitionState, hget, hvt]
        rw [@updateRow_of_mem st job { job with state := .succeeded, completedAt := some now } hmem rfl]
      | failed =>
        refine ⟨{ job with state := .failed, completedAt := some now }, rfl, rfl, ?_⟩
        simp only [transitionState, hget, hvt]
        rw [@updateRow_of_mem st job { job with state := .failed, completedAt := some now } hmem rfl]
      | retrying =>
        refine ⟨{ job with state := .retrying }, rfl, rfl, ?_⟩
        simp only [transitionState, hget, hvt]
        rw [@updateRow_of_mem st job { job with state := .retrying } hmem rfl]
      | cancelled =>
        refine ⟨{ job with state := .cancelled, completedAt := some now }, rfl, rfl, ?_⟩
        simp only [transitionState, hget, hvt]
        rw [@updateRow_of_mem st job { job with state := .cancelled, completedAt := some now } hmem rfl]
    refine ⟨by simp [hred, hcan], fun _ => ?_, fun hfalse => by rw [hcan] at hfalse; cases hfalse⟩
    rw [hred, getByID_update_of_nodup hmem hnd hid']
    simp [hstate']
  · have hne : validateTransition job.state tgt ≠ none := fun h =>
      hcan ((validateTransition_none_iff _ _).mp h)
    obtain ⟨e, hvt⟩ : ∃ e, validateTransition job.state tgt = some e := by
      cases h : validateTransition job.state tgt with
      | none => exact absurd h hne
      | some e => exact ⟨e, rfl⟩
    have hred : transitionState st job.id tgt now =
        (some (.invalidTransition e), st) := by
      simp only [transitionState, hget, hvt]
    refine ⟨by simp [hred, hcan], fun htrue => absurd htrue hcan, fun _ => ?_⟩
    exact ⟨⟨e, by rw [hred]⟩, by rw [hred]⟩

/-- Witness for the amended C1 theorem: a concrete PENDING job moved to
SCHEDULED. -/
theorem transitionState_spec_witness :
    ((transitionState [jobPending] "j1" .scheduled 7).1 = none
      ↔ canTransition jobPending.state .scheduled = true)
    ∧ (canTransition jobPending.state .scheduled = true →
        (getByID (transitionState [jobPending] "j1" .scheduled 7).2 "j1").map Job.state
          = some .scheduled)
    ∧ (canTransition jobPending.state .scheduled = false →
        (∃ e, (transitionState [jobPending] "j1" .scheduled 7).1
            = some (.invalidTransition e))
        ∧ (transitionState [jobPending] "j1" .scheduled 7).2 = [jobPending]) :=
  transitionState_spec [jobPending] "j1" .scheduled 7 jobPending (by decide) (by decide)

/-- C3 (evaluation at the failing input): `HandleFailure` never consults
the state machine, so on a store whose only job is already in the
terminal state SUCCEEDED it succeeds and rewrites the job's state to
RETRYING — a terminal state is not absorbing under `HandleFailure`,
contradicting the state machine's own documentation and I7. -/
theorem handleFailure_escapes_terminal :
    (handleFailure [{ jobPending with state := .succeeded, completedAt := some 3 }]
        "j1" (some "boom") 5).1 = none
    ∧ (getByID (handleFailure [{ jobPending with state := .succeeded, completedAt := some 3 }]
        "j1" (some "boom") 5).2 "j1").map Job.state = some .retrying := by
  decide

/-- C6: for an existing job, `HandleFailure(id, err)` always succeeds,
records `last_error = err`, and — when `attempt < max_attempts` —
increments the attempt and moves the job to RETRYING, otherwise moves it
to FAILED stamping `completed_at`. -/
theorem handleFailure_spec (st : Store) (id msg : String) (now : Nat) (job : Job)
    (hnd : (st.map Job.id).Nodup) (hget : getByID st id = some job) :
    (handleFailure st id (some msg) now).1 = none
    ∧ getByID (handleFailure st id (some msg) now).2 id =
        some (if job.attempt < job.maxAttempts
          then { job with lastError := some msg, attempt := job.attempt + 1,
                          state := .retrying }
          else { job with lastError := some msg, state := .failed,
                          completedAt := some now }) := by
  obtain ⟨hmem, hid⟩ := getByID_eq_some hget
  subst hid
  by_cases hretry : job.attempt < job.maxAttempts
  · have hred : handleFailure st job.id (some msg) now =
        (none, st.map fun k => if k.id == job.id then
          { job with lastError := some msg, attempt := job.attempt + 1,
                     state := .retrying } else k) := by
      simp only [handleFailure, hget, Job.recordError, Job.canRetry, Job.incrementAttempt]
      rw [if_pos (by simpa using hretry)]
      exact serviceFinish st
        { job with lastError := some msg, attempt := job.attempt + 1, state := .retrying }
        hmem rfl
    rw [hred, if_pos hretry]
    exact ⟨rfl, @getByID_update_of_nodup st job
      { job with lastError := some msg, attempt := job.attempt + 1, state := .retrying }
      hmem hnd rfl⟩
  · have hred : handleFailure st job.id (some msg) now =
        (none, st.map fun k => if k.id == job.id then
          { job with lastError := some msg, state := .failed,
                     completedAt := some now } else k) := by
      simp only [handleFailure, hget, Job.recordError, Job.canRetry, Job.incrementAttempt]
      rw [if_neg (by simpa using hretry)]
      exact serviceFinish st
        { job with lastError := some msg, state := .failed, completedAt := some now }
        hmem rfl
    rw [hred, if_neg hretry]
    exact ⟨rfl, @getByID_update_of_nodup st job
      { job with lastError := some msg, state := .failed, completedAt := some now }
      hmem hnd rfl⟩

/-- Witness for C6: a RUNNING job with one attempt left retries; the
hypotheses are discharged on a concrete one-row store. -/
theorem handleFailure_spec_witness :
    (handleFailure [jobRunning] "j1" (some "oops") 9).1 = none
    ∧ getByID (handleFailure [jobRunning] "j1" (some "oops") 9).2 "j1" =
        some (if jobRunning.attempt < jobRunning.maxAttempts
          then { jobRunning with
                   lastError := some "oops", attempt := jobRunning.attempt + 1,
                   state := .retrying }
          else { jobRunning with
                   lastError := some "oops", state := .failed,
                   completedAt := some 9 }) :=
  handleFailure_spec [jobRunning] "j1" "oops" 9 jobRunning (by decide) (by decide)

/-- C8 counterexample: cancelling a job that is still PENDING persists
state CANCELLED with `completed_at` stamped but `scheduled_at` still
unset, so "state ≠ PENDING → scheduled_at is set" fails after this
durable write. -/
theorem scheduledAt_claim_counterexample :
    (cancelJob [jobPending] "j1" 5).1 = none
    ∧ getByID (cancelJob [jobPending] "j1" 5).2 "j1" =
        some { jobPending with state := .cancelled, completedAt := some 5 }
    ∧ ({ jobPending with state := .cancelled, completedAt := some 5 } : Job).state
        ≠ .pending
    ∧ ({ jobPending with state := .cancelled, completedAt := some 5 } : Job).scheduledAt
        = none := by
  decide

/-- C8 (amended): the code maintains I5 for SCHEDULED, RUNNING and
SUCCEEDED: if every stored job in one of those states has
`scheduled_at` set, then the same holds after each Job Service
operation (CreateJob, TransitionState, HandleFailure, CancelJob).
Jobs cancelled or failure-handled straight out of PENDING end in
CANCELLED (resp. RETRYING/FAILED) with `scheduled_at` unset, so those
three states cannot be included. -/
theorem scheduledAt_invariant (jsonValid : String → Bool) (st : Store)
    (id jobType payload : String) (tgt : State) (err : Option String) (now : Nat)
    (h : scheduledSet st) :
    scheduledSet (createJob jsonValid st id jobType payload now).2
    ∧ scheduledSet (transitionState st id tgt now).2
    ∧ scheduledSet (handleFailure st id err now).2
    ∧ scheduledSet (cancelJob st id now).2 := by
  refine ⟨?_, ?_, ?_, ?_⟩
  · unfold createJob
    split
    · exact h
    · split
      · exact h
      · dsimp only
        split
        · exact h
        · split
          · rename_i st' heq
            unfold createRow at heq
            split at heq
            · cases heq
            · cases heq
              exact jobInv_append h (fun hc => by rcases hc with hc | hc | hc <;> cases hc)
          · exact h
  · cases hget : getByID st id with
    | none => simp only [transitionState, hget]; exact h
    | some job =>
      cases hvt : validateTransition job.state tgt with
      | some e => simp only [transitionState, hget, hvt]; exact h
      | none =>
        obtain ⟨hmem, _⟩ := getByID_eq_some hget
        obtain ⟨job', hid', hstate', hatt', hmax', hsched', hred⟩ :=
          transitionState_ok_shape hmem hget hvt
        rw [hred]
        refine jobInv_map_replace h ?_
        intro hsr
        by_cases hts : tgt = State.scheduled
        · rw [hsched', if_pos hts]; rfl
        · rw [hsched', if_neg hts]
          rcases hsr with h2 | h2 | h2
          · exact absurd (hstate'.symm.trans h2) hts
          · have hrun : tgt = .running := hstate'.symm.trans h2
            subst hrun
            have hcs : canTransition job.state .running = true :=
              (validateTransition_none_iff _ _).mp hvt
            have hjs : job.state = .scheduled := by
              revert hcs; cases job.state <;> decide
            exact h job hmem (Or.inl hjs)
          · have hsuc : tgt = .succeeded := hstate'.symm.trans h2
            subst hsuc
            have hcs : canTransition job.state .succeeded = true :=
              (validateTransition_none_iff _ _).mp hvt
            have hjs : job.state = .running := by
              revert hcs; cases job.state <;> decide
            exact h job hmem (Or.inr (Or.inl hjs))
  · cases hget : getByID st id with
    | none => simp only [handleFailure, hget]; exact h
    | some job =>
      obtain ⟨hmem, _⟩ := getByID_eq_some hget
      obtain ⟨job', hid', hstate', hmax', hsched', hatt', hred⟩ :=
        @handleFailure_ok_shape st id err now job hmem hget
      rw [hred]
      refine jobInv_map_replace h ?_
      intro hsr
      rcases hstate' with hs | hs <;> rw [hs] at hsr <;>
        rcases hsr with h2 | h2 | h2 <;> cases h2
  · cases hget : getByID st id with
    | none => simp only [cancelJob, hget]; exact h
    | some job =>
      by_cases hterm : job.isTerminal = true
      · simp only [cancelJob, hget, hterm]; exact h
      · have hterm' : job.isTerminal = false := by simpa using hterm
        cases hvt : validateTransition job.state .cancelled with
        | some e => simp only [cancelJob, hget, hterm', hvt]; exact h
        | none =>
          obtain ⟨hmem, _⟩ := getByID_eq_some hget
          rw [cancelJob_ok_shape hmem hget hvt hterm']
          refine jobInv_map_replace h ?_
          intro hsr
          rcases hsr with h2 | h2 | h2 <;> cases h2

/-- Witness for the amended C8 theorem on a concrete one-row store. -/
theorem scheduledAt_invariant_witness :
    scheduledSet (createJob (fun _ => true) [jobPending] "j1" "demo" "" 2).2
    ∧ scheduledSet (transitionState [jobPending] "j1" .scheduled 2).2
    ∧ scheduledSet (handleFailure [jobPending] "j1" (some "e") 2).2
    ∧ scheduledSet (cancelJob [jobPending] "j1" 2).2 :=
  scheduledAt_invariant (fun _ => true) [jobPending] "j1" "demo" "" .scheduled
    (some "e") 2 (by
      intro j hj hc
      rcases List.mem_singleton.mp hj with rfl
      rcases hc with hc | hc | hc <;> cases hc)

/-- C9: if every stored job satisfies `1 ≤ attempt ≤ max_attempts`, then
the same holds after each Job Service mutation (CreateJob with its fresh
`attempt = 1 ≤ 3 = max_attempts` row, TransitionState and CancelJob
which never touch the counters, and HandleFailure which increments
`attempt` only under `attempt < max_attempts`). -/
theorem attempt_invariant (jsonValid : String → Bool) (st : Store)
    (id jobType payload : String) (tgt : State) (err : Option String) (now : Nat)
    (h : attemptBounded st) :
    attemptBounded (createJob jsonValid st id jobType payload now).2
    ∧ attemptBounded (transitionState st id tgt now).2
    ∧ attemptBounded (handleFailure st id err now).2
    ∧ attemptBounded (cancelJob st id now).2 := by
  refine ⟨?_, ?_, ?_, ?_⟩
  · unfold createJob
    split
    · exact h
    · split
      · exact h
      · dsimp only
        split
        · exact h
        · split
          · rename_i st' heq
            unfold createRow at heq
            split at heq
            · cases heq
            · cases heq
              exact jobInv_append h ⟨le_refl 1, by norm_num⟩
          · exact h
  · cases hget : getByID st id with
    | none => simp only [transitionState, hget]; exact h
    | some job =>
      cases hvt : validateTransition job.state tgt with
      | some e => simp only [transitionState, hget, hvt]; exact h
      | none =>
        obtain ⟨hmem, _⟩ := getByID_eq_some hget
        obtain ⟨job', hid', hstate', hatt', hmax', hsched', hred⟩ :=
          transitionState_ok_shape hmem hget hvt
        rw [hred]
        refine jobInv_map_replace h ?_
        rw [hatt', hmax']
        exact h job hmem
  · cases hget : getByID st id with
    | none => simp only [handleFailure, hget]; exact h
    | some job =>
      obtain ⟨hmem, _⟩ := getByID_eq_some hget
      obtain ⟨job', hid', hstate', hmax', hsched', hatt', hred⟩ :=
        @handleFailure_ok_shape st id err now job hmem hget
      rw [hred]
      refine jobInv_map_replace h ?_
      rcases hatt' with ha | ⟨ha, hlt⟩
      · rw [ha, hmax']
        exact h job hmem
      · rw [ha, hmax']
        exact ⟨le_trans (h job hmem).1 (Nat.le_succ _), Nat.succ_le_of_lt hlt⟩
  · cases hget : getByID st id with
    | none => simp only [cancelJob, hget]; exact h
    | some job =>
      by_cases hterm : job.isTerminal = true
      · simp only [cancelJob, hget, hterm]; exact h
      · have hterm' : job.isTerminal = false := by simpa using hterm
        cases hvt : validateTransition job.state .cancelled with
        | some e => simp only [cancelJob, hget, hterm', hvt]; exact h
        | none =>
          obtain ⟨hmem, _⟩ := getByID_eq_some hget
          rw [cancelJob_ok_shape hmem hget hvt hterm']
          refine jobInv_map_replace h ?_
          exact h job hmem

/-- Witness for C9 on a concrete one-row store. -/
theorem attempt_invariant_witness :
    attemptBounded (createJob (fun _ => true) [jobPending] "j1" "demo" "" 2).2
    ∧ attemptBounded (transitionState [jobPending] "j1" .scheduled 2).2
    ∧ attemptBounded (handleFailure [jobPending] "j1" (some "e") 2).2
    ∧ attemptBounded (cancelJob [jobPending] "j1" 2).2 :=
  attempt_invariant (fun _ => true) [jobPending] "j1" "demo" "" .scheduled
    (some "e") 2 (by
      intro j hj
      rcases List.mem_singleton.mp hj with rfl
      exact ⟨by decide, by decide⟩)

/-- C10: when the worker pool classifies a failure as permanent (missing
executor or recovered panic, `retryable = false`), it persists the job
through `TransitionState(FAILED)`: the stored row keeps every field of
the loaded job except `state` and `completed_at` — in particular
`last_error` is unchanged, so the panic / missing-executor message is
never recorded in the job record. -/
theorem workerPermanentFailure_frame (st : Store) (id msg : String) (now : Nat)
    (job : Job) (hnd : (st.map Job.id).Nodup) (hget : getByID st id = some job)
    (hrun : job.state = .running) :
    (workerHandleFailure st id msg false now).1 = none
    ∧ getByID (workerHandleFailure st id msg false now).2 id =
        some { job with state := .failed, completedAt := some now }
    ∧ (getByID (workerHandleFailure st id msg false now).2 id).map Job.lastError
        = some job.lastError := by
  obtain ⟨hmem, hid⟩ := getByID_eq_some hget
  subst hid
  have hvt : validateTransition job.state .failed = none := by
    rw [hrun]; decide
  have hred : workerHandleFailure st job.id msg false now =
      (none, st.map fun k => if k.id == job.id then
        { job with state := .failed, completedAt := some now } else k) := by
    show transitionState st job.id .failed now = _
    simp only [transitionState, hget, hvt]
    exact serviceFinish st { job with state := .failed, completedAt := some now }
      hmem rfl
  rw [hred]
  have hg := @getByID_update_of_nodup st job
    { job with state := .failed, completedAt := some now } hmem hnd rfl
  exact ⟨rfl, hg, by rw [hg]; rfl⟩

/-- Witness for C10: a concrete RUNNING job hit by a recovered panic. -/
theorem workerPermanentFailure_frame_witness :
    (workerHandleFailure [jobRunning] "j1" "panic: boom" false 4).1 = none
    ∧ getByID (workerHandleFailure [jobRunning] "j1" "panic: boom" false 4).2 "j1" =
        some { jobRunning with state := .failed, completedAt := some 4 }
    ∧ (getByID (workerHandleFailure [jobRunning] "j1" "panic: boom" false 4).2 "j1").map
        Job.lastError = some jobRunning.lastError :=
  workerPermanentFailure_frame [jobRunning] "j1" "panic: boom" 4 jobRunning
    (by decide) (by decide) (by decide)

/-- C2 counterexample: the claim query orders by `created_at` only (no
id tie-break in the SQL), so on a table holding two PENDING jobs with
equal `created_at` and ids stored in descending order, the claimed batch
comes back with ids ["b", "a"] — not id-ascending on the tie. -/
theorem claim_ordering_counterexample :
    ((claimPendingJobs [jobTieB, jobTieA] 10 7 false).2.1).map Job.id = ["b", "a"]
    ∧ (∀ j ∈ (claimPendingJobs [jobTieB, jobTieA] 10 7 false).2.1, j.createdAt = 0)
    ∧ ¬ specClaimOrdering (claimPendingJobs [jobTieB, jobTieA] 10 7 false).2.1 := by
  refine ⟨by decide, by decide, ?_⟩
  intro h
  have hres : (claimPendingJobs [jobTieB, jobTieA] 10 7 false).2.1 =
      [claimUpdate 7 jobTieB, claimUpdate 7 jobTieA] := by decide
  rw [hres] at h
  have h2 := (List.pairwise_cons.mp h).1 (claimUpdate 7 jobTieA)
    (List.mem_singleton.mpr rfl)
  rcases h2 with h2 | ⟨-, h2⟩
  · exact absurd h2 (by decide)
  · rw [String.le_iff_toList_le] at h2
    exact absurd h2 (by decide)

/-- C2 (amended): the claimed batch is returned ordered by `created_at`
ascending; rows with equal `created_at` keep their relative table order,
with no id tie-break. -/
theorem claimPendingJobs_sorted (st : Store) (limit now : Nat) (fail : Bool) :
    ((claimPendingJobs st limit now fail).2.1).Pairwise createdLE := by
  unfold claimPendingJobs
  by_cases he : (claimCandidates st limit).isEmpty = true
  · simp [he]
  · by_cases hf : fail = true
    · simp [he, hf]
    · simp only [he, hf, Bool.false_eq_true, if_false]
      refine List.pairwise_map.mpr ?_
      have hp : (claimCandidates st limit).Pairwise createdLE :=
        List.Pairwise.sublist (List.take_sublist _ _) (pairwise_orderByCreatedAt _)
      exact hp.imp (fun hab => hab)

/-- C4: `ClaimPendingJobs` either fails, reporting zero claimed jobs
with the table unchanged (rollback), or succeeds returning at most
`limit` snapshots, each with state SCHEDULED and the new `scheduled_at`,
and each equal to its persisted row. -/
theorem claimPendingJobs_spec (st : Store) (limit now : Nat) (fail : Bool)
    (hnd : (st.map Job.id).Nodup) :
    ((claimPendingJobs st limit now fail).1.isSome →
      (claimPendingJobs st limit now fail).2.1 = []
      ∧ (claimPendingJobs st limit now fail).2.2 = st)
    ∧ ((claimPendingJobs st limit now fail).1 = none →
      (claimPendingJobs st limit now fail).2.1.length ≤ limit
      ∧ ∀ j ∈ (claimPendingJobs st limit now fail).2.1,
          j.state = .scheduled ∧ j.scheduledAt = some now
          ∧ getByID (claimPendingJobs st limit now fail).2.2 j.id = some j) := by
  by_cases he : (claimCandidates st limit).isEmpty = true
  · have hres : claimPendingJobs st limit now fail = (none, [], st) := by
      unfold claimPendingJobs
      simp [he]
    rw [hres]
    exact ⟨(fun h => nomatch h), fun _ => ⟨Nat.zero_le _, fun j hj => nomatch hj⟩⟩
  · by_cases hf : fail = true
    · have hres : claimPendingJobs st limit now fail =
          (some "failed to update jobs to SCHEDULED", [], st) := by
        unfold claimPendingJobs
        simp [he, hf]
      rw [hres]
      exact ⟨(fun _ => ⟨rfl, rfl⟩), (fun h => nomatch h)⟩
    · have hres : claimPendingJobs st limit now fail =
          (none, (claimCandidates st limit).map (claimUpdate now),
            st.map fun j =>
              if ((claimCandidates st limit).map Job.id).contains j.id
              then claimUpdate now j else j) := by
        unfold claimPendingJobs
        simp [he, hf]
      rw [hres]
      refine ⟨(fun h => nomatch h), fun _ => ⟨?_, ?_⟩⟩
      · rw [List.length_map]
        exact List.length_take_le _ _
      · intro j hj
        rcases List.mem_map.mp hj with ⟨c, hc, rfl⟩
        obtain ⟨hcst, -⟩ := mem_claimCandidates hc
        refine ⟨rfl, rfl, ?_⟩
        have hf' : ∀ k : Job,
            ((fun j => if ((claimCandidates st limit).map Job.id).contains j.id
              then claimUpdate now j else j) k).id = k.id := by
          intro k
          dsimp only
          by_cases hck : (((claimCandidates st limit).map Job.id).contains k.id) = true
          · rw [if_pos hck]; rfl
          · rw [if_neg hck]
        have hmain := getByID_map_of_nodup hf' hcst hnd
        have hcontains : (((claimCandidates st limit).map Job.id).contains c.id) = true :=
          List.elem_eq_true_of_mem (List.mem_map_of_mem Job.id hc)
        rw [hcontains] at hmain
        simp only [if_true] at hmain
        show getByID _ (claimUpdate now c).id = some (claimUpdate now c)
        exact hmain

/-- Witness for C4 on a concrete one-row store. -/
theorem claimPendingJobs_spec_witness :
    ((claimPendingJobs [jobPending] 5 3 false).1.isSome →
      (claimPendingJobs [jobPending] 5 3 false).2.1 = []
      ∧ (claimPendingJobs [jobPending] 5 3 false).2.2 = [jobPending])
    ∧ ((claimPendingJobs [jobPending] 5 3 false).1 = none →
      (claimPendingJobs [jobPending] 5 3 false).2.1.length ≤ 5
      ∧ ∀ j ∈ (claimPendingJobs [jobPending] 5 3 false).2.1,
          j.state = .scheduled ∧ j.scheduledAt = some 3
          ∧ getByID (claimPendingJobs [jobPending] 5 3 false).2.2 j.id = some j) :=
  claimPendingJobs_spec [jobPending] 5 3 false (by decide)

end Orchestrix
